import Mathlib

/-
Verification of the accent-phrase pipeline of `run_container.py`
(repository voicevox_gcp).

The file embeds, as executable Lean definitions:
  * the module constants `kMoraLimit` and `enable_interrogative_upspeak`
    (lines 37-38);
  * the request body `TTSRequest` (lines 40-43);
  * `mora_to_text` (lines 45-52), parameterised by the lexicon table
    `openjtalk_mora2text` which is imported from the external
    `voicevox_engine` package;
  * the phrase-construction list comprehension of the local
    `create_accent_phrases` (lines 106-147) and the function itself
    (lines 98-149) -- note that the `replace_mora_data` helper it calls
    is commented out at lines 87-96, so the call raises `NameError`,
    modelled here with an `Except` result;
  * the `/tts` handler's truncation loop and `AudioQuery` assembly
    (lines 193-226), parameterised by the engine collaborators.

Strings are modelled by Lean `String`, Python floats by `ℚ` (only the
exactly-representable constants of the source appear), Python `None`
by `Option`.
-/

namespace RunContainer

/-- Module constant `kMoraLimit = 100` (run_container.py line 37). -/
def kMoraLimit : Nat := 100

/-- Module constant `enable_interrogative_upspeak = True` (line 38). -/
def enable_interrogative_upspeak : Bool := true

/-- Request body of the `/tts` endpoint (lines 40-43): fields `text`,
`speaker`, `speed` and nothing else. -/
structure TTSRequest where
  text : String
  speaker : Int
  speed : ℚ
deriving DecidableEq

/-- The five uppercase (devoiced) vowel letters tested by
`mora[-1:] in ["A", "I", "U", "E", "O"]` (line 46). -/
def upperVowels : List Char := ['A', 'I', 'U', 'E', 'O']

/-- Devoicing normalisation inside `mora_to_text` (lines 46-48): when the
final character is an uppercase vowel letter, replace it by its lowercase
form (`mora = mora[:-1] + mora[-1].lower()`); otherwise leave the string
unchanged (on the empty string `mora[-1:]` is `""`, which is not in the
list, so nothing happens). -/
def normalizeMora (mora : String) : String :=
  match mora.data.getLast? with
  | some c =>
      if c ∈ upperVowels then String.mk (mora.data.dropLast ++ [c.toLower]) else mora
  | none => mora

/-- Embedding of `mora_to_text` (lines 45-52), parameterised by the lexicon
`openjtalk_mora2text` (imported from `voicevox_engine.mora_list`, not part
of this repository): normalise the devoiced final vowel, then look the
result up in the table, falling back to the (normalised) string itself. -/
def mora_to_text (openjtalk_mora2text : String → Option String) (mora : String) : String :=
  let m := normalizeMora mora
  match openjtalk_mora2text m with
  | some t => t
  | none => m

/-- The `Mora` model of `voicevox_engine.model`, as used by this file:
display text, optional consonant phoneme with optional length, vowel
phoneme with length, and pitch. -/
structure Mora where
  text : String
  consonant : Option String
  consonant_length : Option ℚ
  vowel : String
  vowel_length : ℚ
  pitch : ℚ
deriving DecidableEq

/-- The `AccentPhrase` model: moras, 1-based accent position, optional
trailing pause mora. -/
structure AccentPhrase where
  moras : List Mora
  accent : Nat
  pause_mora : Option Mora
deriving DecidableEq

/-- The `AudioQuery` model, with the fields the `/tts` handler populates
(lines 207-218). -/
structure AudioQuery where
  accent_phrases : List AccentPhrase
  speedScale : ℚ
  pitchScale : ℚ
  intonationScale : ℚ
  volumeScale : ℚ
  prePhonemeLength : ℚ
  postPhonemeLength : ℚ
  outputSamplingRate : Nat
  outputStereo : Bool
  kana : String
deriving DecidableEq

/-- A mora skeleton as produced by `extract_full_context_label`: the
phoneme list joined for display, the optional consonant phoneme and the
vowel phoneme (fields read at lines 111-120). -/
structure LabelMora where
  phonemes : List String
  consonant : Option String
  vowel : String
deriving DecidableEq

/-- An accent-phrase skeleton from the segmenter: moras plus the 1-based
accent position (line 126). -/
structure LabelAccentPhrase where
  moras : List LabelMora
  accent : Nat
deriving DecidableEq

/-- A breath group from the segmenter: its accent phrases (line 137). -/
structure LabelBreathGroup where
  accent_phrases : List LabelAccentPhrase
deriving DecidableEq

/-- The segmenter output `utterance` with its breath groups (line 102). -/
structure Utterance where
  breath_groups : List LabelBreathGroup
deriving DecidableEq

/-- The pause mora literal constructed at lines 128-135: text `、`, no
consonant, vowel `pau`, zero length and pitch. -/
def pauseMora : Mora :=
  { text := "、", consonant := none, consonant_length := none
    vowel := "pau", vowel_length := 0, pitch := 0 }

/-- The `Mora(...)` constructor call at lines 110-123: display text via
`mora_to_text` over the joined phonemes, consonant carried over, a
`consonant_length` placeholder `0` exactly when a consonant is present,
and placeholder `vowel_length = 0`, `pitch = 0`. -/
def buildMora (lex : String → Option String) (m : LabelMora) : Mora :=
  { text := mora_to_text lex (String.join m.phonemes)
    consonant := m.consonant
    consonant_length := if m.consonant.isSome then some 0 else none
    vowel := m.vowel
    vowel_length := 0
    pitch := 0 }

/-- The `AccentPhrase(...)` constructor call at lines 108-142, for the
accent phrase with index `i_ap` inside the breath group with index `i_bg`:
a pause mora is attached exactly when this phrase is the last of its
breath group (`i_ap = nPhrases - 1`) and the breath group is not the last
of the utterance (`i_bg ≠ nGroups - 1`). -/
def buildAccentPhrase (lex : String → Option String)
    (nGroups i_bg nPhrases i_ap : Nat) (ap : LabelAccentPhrase) : AccentPhrase :=
  { moras := ap.moras.map (buildMora lex)
    accent := ap.accent
    pause_mora :=
      if i_ap = nPhrases - 1 ∧ i_bg ≠ nGroups - 1 then some pauseMora else none }

/-- The inner `for i_accent_phrase, accent_phrase in enumerate(...)` of the
comprehension (lines 144-146), starting at index `i_ap`. -/
def buildPhrases (lex : String → Option String) (nGroups i_bg nPhrases : Nat) :
    Nat → List LabelAccentPhrase → List AccentPhrase
  | _, [] => []
  | i_ap, ap :: rest =>
      buildAccentPhrase lex nGroups i_bg nPhrases i_ap ap ::
        buildPhrases lex nGroups i_bg nPhrases (i_ap + 1) rest

/-- The outer `for i_breath_group, breath_group in enumerate(...)` of the
comprehension (line 143), starting at index `i_bg`; one inner list per
breath group. -/
def buildGroups (lex : String → Option String) (nGroups : Nat) :
    Nat → List LabelBreathGroup → List (List AccentPhrase)
  | _, [] => []
  | i_bg, bg :: rest =>
      buildPhrases lex nGroups i_bg bg.accent_phrases.length 0 bg.accent_phrases ::
        buildGroups lex nGroups (i_bg + 1) rest

/-- The full list comprehension at lines 107-147: the flattening of the
per-breath-group phrase lists, enumerated from zero. -/
def accentPhrasesFromUtterance (lex : String → Option String) (u : Utterance) :
    List AccentPhrase :=
  (buildGroups lex u.breath_groups.length 0 u.breath_groups).flatten

/-- Model of Python `str.strip()` (line 99): remove leading and trailing
whitespace characters. -/
def pyStrip (s : String) : String :=
  String.mk (((s.data.dropWhile Char.isWhitespace).reverse.dropWhile Char.isWhitespace).reverse)

/-- Runtime failure of the local `create_accent_phrases`: the name
`replace_mora_data` it calls at line 106 is only defined in the
commented-out block at lines 87-96, so Python raises `NameError` when the
call expression's callee is resolved (before the comprehension argument is
evaluated). -/
inductive PyError where
  | nameErrorReplaceMoraData
deriving DecidableEq

/-- Embedding of the local `create_accent_phrases` (lines 98-149),
parameterised by the segmenter `extract_full_context_label`: empty trimmed
text or zero breath groups return `[]` (lines 99-104); otherwise the call
to the undefined `replace_mora_data` raises `NameError`. -/
def create_accent_phrases (extract_full_context_label : String → Utterance)
    (text : String) (speaker_id : Int) : Except PyError (List AccentPhrase) :=
  if (pyStrip text).length = 0 then Except.ok []
  else
    let utterance := extract_full_context_label text
    if utterance.breath_groups.length = 0 then Except.ok []
    else Except.error PyError.nameErrorReplaceMoraData

/-- The accent-marker character, an apostrophe (Unicode 39). -/
def accentMarker : String := String.mk [Char.ofNat 39]

/-- Modelled from the spec: one phrase of the Kana Encoder (spec 4.2) --
`create_kana` is imported from `voicevox_engine.kana_parser` and is not
part of this repository. Concatenate the display glyphs of the moras in
order and insert a single apostrophe immediately after the glyph of the
mora whose 1-based position equals the phrase's `accent`. -/
def encodePhrase (p : AccentPhrase) : String :=
  String.join (p.moras.enum.map
    (fun jm => jm.2.text ++ (if jm.1 + 1 = p.accent then accentMarker else "")))

/-- Modelled from the spec: the Kana Encoder `create_kana` (spec 4.2) --
imported from `voicevox_engine.kana_parser`, not part of this repository.
Render each phrase, appending the pause glyph `、` when the phrase carries
a `pause_mora`, and concatenate the phrases with no other separator. -/
def create_kana (phrases : List AccentPhrase) : String :=
  String.join (phrases.map
    (fun p => encodePhrase p ++ (if p.pause_mora.isSome then "、" else "")))

/-- The truncation loop of the `/tts` handler (lines 198-204): accumulate
the running mora count; once it exceeds `kMoraLimit`, stop and drop the
current phrase and all following ones. -/
def truncLoop (mora_length : Nat) : List AccentPhrase → List AccentPhrase
  | [] => []
  | accent :: rest =>
      let m := mora_length + accent.moras.length
      if m > kMoraLimit then [] else accent :: truncLoop m rest

/-- Total mora count of a phrase list (the quantity the truncation loop
accumulates). -/
def sumMoras (phrases : List AccentPhrase) : Nat :=
  (phrases.map (fun p => p.moras.length)).sum

/-- Modelled from the spec: `engine.synthesis` (line 219) is a method of
the external `voicevox_engine` synthesis engine. Per the spec (4.4,
optional post-processing), when `enable_interrogative_upspeak` is set it
applies the deterministic upspeak transform to the query's accent phrases
before handing them to the acoustic model; the transform and the acoustic
model are abstract parameters here. -/
def synthesis {α : Type} (upspeak : List AccentPhrase → List AccentPhrase)
    (acoustic : List AccentPhrase → α) (query : AudioQuery) (flag : Bool) : α :=
  acoustic (if flag then upspeak query.accent_phrases else query.accent_phrases)

/-- Embedding of the `/tts` handler (lines 193-226), parameterised by the
engine collaborators: `engine_create_accent_phrases` models the
`engine.create_accent_phrases` method call at line 197, `upspeak` and
`acoustic` model the synthesis engine. Returns the assembled `AudioQuery`
(lines 207-218) together with the synthesised wave (line 219). Note the
query's `kana` is computed from the untruncated `accent_phrases` list
while its `accent_phrases` field holds the truncated list `trunc`. -/
def tts {α : Type} (engine_create_accent_phrases : String → Int → List AccentPhrase)
    (upspeak : List AccentPhrase → List AccentPhrase) (acoustic : List AccentPhrase → α)
    (default_sampling_rate : Nat) (body : TTSRequest) : AudioQuery × α :=
  let accent_phrases := engine_create_accent_phrases body.text body.speaker
  let trunc := truncLoop 0 accent_phrases
  let query : AudioQuery :=
    { accent_phrases := trunc
      speedScale := body.speed
      pitchScale := 0
      intonationScale := 1
      volumeScale := 6/5
      prePhonemeLength := 3/20
      postPhonemeLength := 1/10
      outputSamplingRate := default_sampling_rate
      outputStereo := false
      kana := create_kana accent_phrases }
  (query, synthesis upspeak acoustic query enable_interrogative_upspeak)

/-- Flat position of accent phrase `j` of breath group `i` inside the
flattened output of the comprehension: the total number of phrases of the
earlier breath groups plus `j`. -/
def flatIdx (u : Utterance) (i j : Nat) : Nat :=
  (((u.breath_groups.map (fun bg => bg.accent_phrases.length)).take i)).sum + j

/-- A concrete lexicon for concrete evaluations. -/
def lexEx : String → Option String :=
  fun s => if s = "a" then some "ア" else if s = "ka" then some "カ" else none

/-- A concrete mora for concrete evaluations. -/
def exMoraA : Mora :=
  { text := "ア", consonant := none, consonant_length := none
    vowel := "a", vowel_length := 0, pitch := 0 }

/-- A concrete 10-mora phrase. -/
def exPhrase10 : AccentPhrase :=
  { moras := List.replicate 10 exMoraA, accent := 1, pause_mora := none }

/-- A concrete 95-mora phrase. -/
def exPhrase95 : AccentPhrase :=
  { moras := List.replicate 95 exMoraA, accent := 1, pause_mora := none }

/-- A concrete request body. -/
def exBody : TTSRequest := { text := "テスト", speaker := 1, speed := 1 }

/-- A concrete engine output: mora counts [10, 95]. -/
def exCaf : String → Int → List AccentPhrase := fun _ _ => [exPhrase10, exPhrase95]

/-- A concrete segmenter mora skeleton. -/
def exLMora : LabelMora := { phonemes := ["a"], consonant := none, vowel := "a" }

/-- A concrete segmenter accent-phrase skeleton. -/
def exLPhrase : LabelAccentPhrase := { moras := [exLMora], accent := 1 }

/-- A concrete breath group with one phrase. -/
def exLGroup : LabelBreathGroup := { accent_phrases := [exLPhrase] }

/-- A concrete utterance with two breath groups. -/
def exUtterance : Utterance := { breath_groups := [exLGroup, exLGroup] }

/-- A concrete segmenter returning `exUtterance` for every text. -/
def exSeg : String → Utterance := fun _ => exUtterance

/-- A concrete upspeak transform that raises every pitch to 1 (any
structure-preserving pitch change serves as an observer). -/
def exUpspeak : List AccentPhrase → List AccentPhrase :=
  fun phrases => phrases.map (fun p =>
    { p with moras := p.moras.map (fun m => { m with pitch := 1 }) })

/-- A concrete engine output small enough to survive truncation. -/
def exCafSmall : String → Int → List AccentPhrase := fun _ _ => [exPhrase10]

/-- A concrete engine output with no phrases at all. -/
def exCafEmpty : String → Int → List AccentPhrase := fun _ _ => []

/-- A concrete segmenter returning zero breath groups. -/
def exSegEmpty : String → Utterance := fun _ => { breath_groups := [] }

/-- The first accent phrase the comprehension builds from `exUtterance`
(breath group 0 of 2, phrase 0 of 1). -/
def exBuiltPhrase : AccentPhrase := buildAccentPhrase lexEx 2 0 1 0 exLPhrase

/- Helper lemmas about the truncation loop. -/

theorem sumMoras_cons (a : AccentPhrase) (l : List AccentPhrase) :
    sumMoras (a :: l) = a.moras.length + sumMoras l := by
  simp [sumMoras]

theorem truncLoop_extends (acc : Nat) (l : List AccentPhrase) :
    ∃ t, truncLoop acc l ++ t = l := by
  induction l generalizing acc with
  | nil => exact ⟨[], rfl⟩
  | cons a rest ih =>
      by_cases h : acc + a.moras.length > kMoraLimit
      · exact ⟨a :: rest, by simp [truncLoop, h]⟩
      · obtain ⟨t, ht⟩ := ih (acc + a.moras.length)
        exact ⟨t, by simp [truncLoop, h, ht]⟩

theorem truncLoop_sum_le (acc : Nat) (l : List AccentPhrase) (h : acc ≤ kMoraLimit) :
    acc + sumMoras (truncLoop acc l) ≤ kMoraLimit := by
  induction l generalizing acc with
  | nil => simpa [truncLoop, sumMoras] using h
  | cons a rest ih =>
      by_cases hm : acc + a.moras.length > kMoraLimit
      · simpa [truncLoop, hm, sumMoras] using h
      · have hrec := ih (acc + a.moras.length) (by omega)
        simp only [truncLoop, if_neg hm]
        rw [sumMoras_cons]
        omega

theorem truncLoop_maximal (l : List AccentPhrase) :
    ∀ (acc : Nat) (p t : List AccentPhrase), p ++ t = l →
      acc + sumMoras p ≤ kMoraLimit → p.length ≤ (truncLoop acc l).length := by
  induction l with
  | nil =>
      intro acc p t hpt _
      have hp : p = [] := by
        cases p with
        | nil => rfl
        | cons b p2 => simp at hpt
      simp [hp]
  | cons a rest ih =>
      intro acc p t hpt hsum
      cases p with
      | nil => simp
      | cons b p2 =>
          rw [List.cons_append] at hpt
          injection hpt with hb ht2
          subst hb
          rw [sumMoras_cons] at hsum
          have hm : ¬ (acc + b.moras.length > kMoraLimit) := by omega
          simp only [truncLoop, if_neg hm, List.length_cons]
          exact Nat.succ_le_succ (ih (acc + b.moras.length) p2 t ht2 (by omega))

/-- C2: the `accent_phrases` of the query assembled by the `/tts` handler
is exactly the longest prefix of the engine's phrase sequence whose total
mora count stays at or below `kMoraLimit = 100`; and for per-phrase mora
counts `[10, 95, 95]` the truncation loop retains exactly the first
phrase. -/
theorem query_phrases_mora_limit_truncation (α : Type) :
    (∀ (caf : String → Int → List AccentPhrase)
       (upspeak : List AccentPhrase → List AccentPhrase)
       (acoustic : List AccentPhrase → α) (rate : Nat) (body : TTSRequest),
       (∃ t, (tts caf upspeak acoustic rate body).1.accent_phrases ++ t =
           caf body.text body.speaker) ∧
       sumMoras ((tts caf upspeak acoustic rate body).1.accent_phrases) ≤ kMoraLimit ∧
       (∀ p t, p ++ t = caf body.text body.speaker → sumMoras p ≤ kMoraLimit →
         p.length ≤ ((tts caf upspeak acoustic rate body).1.accent_phrases).length)) ∧
    (∀ p1 p2 p3 : AccentPhrase, p1.moras.length = 10 → p2.moras.length = 95 →
       p3.moras.length = 95 → truncLoop 0 [p1, p2, p3] = [p1]) := by
  constructor
  · intro caf upspeak acoustic rate body
    refine ⟨truncLoop_extends 0 _, ?_, ?_⟩
    · have h := truncLoop_sum_le 0 (caf body.text body.speaker) (by simp [kMoraLimit])
      simpa using h
    · intro p t hpt hsum
      exact truncLoop_maximal _ 0 p t hpt (by simpa using hsum)
  · intro p1 p2 p3 h1 h2 h3
    simp [truncLoop, h1, h2, h3, kMoraLimit]

/-- Witness for C2 at concrete inputs: mora counts `[10, 95, 95]` keep
exactly the first phrase, and the prefix `[exPhrase10]` of the concrete
engine output is no longer than the query's phrase list. -/
theorem query_phrases_mora_limit_truncation_witness :
    truncLoop 0 [exPhrase10, exPhrase95, exPhrase95] = [exPhrase10] ∧
    [exPhrase10].length ≤ ((tts exCaf exUpspeak id 24000 exBody).1.accent_phrases).length :=
  ⟨(query_phrases_mora_limit_truncation (List AccentPhrase)).2 exPhrase10 exPhrase95
      exPhrase95 (by decide) (by decide) (by decide),
   ((query_phrases_mora_limit_truncation (List AccentPhrase)).1 exCaf exUpspeak id
      24000 exBody).2.2 [exPhrase10] [exPhrase95] (by decide) (by decide)⟩

/-- C7: `mora_to_text` is a total function of its input (the embedding
returns a string for every phoneme string), and on any devoicing-normalised
input (a fixpoint of the normalisation) with no lexicon entry it returns
the input unchanged. -/
theorem mora_to_text_total_fallback (lex : String → Option String) (s : String)
    (hnorm : normalizeMora s = s) (hmiss : lex s = none) :
    mora_to_text lex s = s := by
  simp [mora_to_text, hnorm, hmiss]

/-- Witness for C7: the unknown phoneme string `xyz` falls back to itself. -/
theorem mora_to_text_total_fallback_witness : mora_to_text lexEx "xyz" = "xyz" :=
  mora_to_text_total_fallback lexEx "xyz" (by decide) (by decide)

/-- C8: a phoneme string ending in an uppercase vowel letter renders to the
same glyph as the same string with the final letter lowercased. -/
theorem mora_to_text_devoicing_invariant (lex : String → Option String) (s : String)
    (c : Char) (hlast : s.data.getLast? = some c) (hup : c ∈ upperVowels) :
    mora_to_text lex s = mora_to_text lex (String.mk (s.data.dropLast ++ [c.toLower])) := by
  have hlow : c.toLower ∉ upperVowels := by
    fin_cases hup <;> decide
  have h1 : normalizeMora s = String.mk (s.data.dropLast ++ [c.toLower]) := by
    simp [normalizeMora, hlast, hup]
  have h2 : normalizeMora (String.mk (s.data.dropLast ++ [c.toLower])) =
      String.mk (s.data.dropLast ++ [c.toLower]) := by
    have hl2 : (String.mk (s.data.dropLast ++ [c.toLower])).data.getLast? = some c.toLower :=
      List.getLast?_concat _
    simp [normalizeMora, hl2, hlow]
  simp [mora_to_text, h1, h2]

/-- Witness for C8: `kA` (devoiced) renders like `ka` (voiced). -/
theorem mora_to_text_devoicing_invariant_witness :
    mora_to_text lexEx "kA" =
      mora_to_text lexEx (String.mk ("kA".data.dropLast ++ ['A'.toLower])) :=
  mora_to_text_devoicing_invariant lexEx "kA" 'A' (by decide) (by decide)

/-- C3 (failing input): on any text with non-empty trimmed form whose
segmentation has at least one breath group, the local
`create_accent_phrases` does not return a phrase list: it raises
`NameError` because `replace_mora_data` is commented out (lines 87-96)
while line 106 still calls it. -/
theorem create_accent_phrases_raises_nameerror :
    create_accent_phrases exSeg "テスト" 1 =
      Except.error PyError.nameErrorReplaceMoraData := by
  rfl

/-- C5: whitespace-only text, or a segmentation with zero breath groups,
makes `create_accent_phrases` return the empty phrase list (not an error);
and an empty engine phrase list yields a query with empty `accent_phrases`
and empty `kana`. -/
theorem empty_input_empty_query (α : Type) :
    (∀ (seg : String → Utterance) (text : String) (speaker : Int),
       (pyStrip text).length = 0 ∨ (seg text).breath_groups.length = 0 →
       create_accent_phrases seg text speaker = Except.ok []) ∧
    (∀ (caf : String → Int → List AccentPhrase)
       (upspeak : List AccentPhrase → List AccentPhrase)
       (acoustic : List AccentPhrase → α) (rate : Nat) (body : TTSRequest),
       caf body.text body.speaker = [] →
       (tts caf upspeak acoustic rate body).1.accent_phrases = [] ∧
       (tts caf upspeak acoustic rate body).1.kana = "") := by
  constructor
  · intro seg text speaker h
    by_cases h1 : (pyStrip text).length = 0
    · simp [create_accent_phrases, h1]
    · have h2 : (seg text).breath_groups.length = 0 := h.resolve_left h1
      simp [create_accent_phrases, h1, h2]
  · intro caf upspeak acoustic rate body h
    constructor
    · show truncLoop 0 (caf body.text body.speaker) = []
      rw [h]
      rfl
    · show create_kana (caf body.text body.speaker) = ""
      rw [h]
      rfl

/-- Witness for C5: a zero-breath-group segmentation and an empty engine
phrase list, both at concrete inputs. -/
theorem empty_input_empty_query_witness :
    create_accent_phrases exSegEmpty "テスト" 1 = Except.ok [] ∧
    (tts exCafEmpty exUpspeak id 24000 exBody).1.kana = "" :=
  ⟨(empty_input_empty_query (List AccentPhrase)).1 exSegEmpty "テスト" 1 (Or.inr rfl),
   ((empty_input_empty_query (List AccentPhrase)).2 exCafEmpty exUpspeak id 24000 exBody
      rfl).2⟩

/-- C9 (counterexample): it is not the case that the query's phrase list is
the truncation of the upspeak-adjusted sequence -- at a concrete input the
query holds the truncation of the unadjusted sequence, which differs. -/
theorem upspeak_before_truncation_cex :
    ¬ ((tts exCaf exUpspeak id 24000 exBody).1.accent_phrases =
        truncLoop 0 (exUpspeak (exCaf exBody.text exBody.speaker))) := by
  decide

/-- C9 (amended): the upspeak adjustment happens inside the downstream
`synthesis` call, after truncation and `AudioQuery` assembly: the query's
`accent_phrases` is the truncation of the unadjusted engine sequence, and
only the synthesised wave is produced from the upspeak-adjusted (truncated)
phrases. -/
theorem upspeak_applied_inside_synthesis (α : Type) :
    ∀ (caf : String → Int → List AccentPhrase)
      (upspeak : List AccentPhrase → List AccentPhrase)
      (acoustic : List AccentPhrase → α) (rate : Nat) (body : TTSRequest),
      (tts caf upspeak acoustic rate body).1.accent_phrases =
        truncLoop 0 (caf body.text body.speaker) ∧
      (tts caf upspeak acoustic rate body).2 =
        acoustic (upspeak ((tts caf upspeak acoustic rate body).1.accent_phrases)) :=
  fun _ _ _ _ _ => ⟨rfl, rfl⟩

/-- C10: `enable_interrogative_upspeak` is the constant `true`, and every
`/tts` request synthesises with that flag -- for every possible request
body the wave is `synthesis` applied with flag `true` (the request schema
offers no way to change it). -/
theorem upspeak_flag_always_true (α : Type) :
    enable_interrogative_upspeak = true ∧
    ∀ (caf : String → Int → List AccentPhrase)
      (upspeak : List AccentPhrase → List AccentPhrase)
      (acoustic : List AccentPhrase → α) (rate : Nat) (body : TTSRequest),
      (tts caf upspeak acoustic rate body).2 =
        synthesis upspeak acoustic (tts caf upspeak acoustic rate body).1 true :=
  ⟨rfl, fun _ _ _ _ _ => rfl⟩

set_option maxRecDepth 8192 in
/-- C1 (counterexample): at a concrete input whose phrase sequence is
truncated (mora counts [10, 95]), the assembled query's `kana` differs
from the Encoder's rendering of the query's own (truncated)
`accent_phrases`: line 217 encodes the untruncated list. -/
theorem kana_vs_truncated_query_cex :
    (tts exCaf exUpspeak id 24000 exBody).1.kana ≠
      create_kana ((tts exCaf exUpspeak id 24000 exBody).1.accent_phrases) := by
  decide

/-- C1 (amended): the query's `kana` is the Encoder's rendering of the
full, untruncated phrase sequence returned by the engine; it therefore
coincides with the rendering of the query's `accent_phrases` whenever the
truncation loop drops nothing, but diverges when phrases are dropped. -/
theorem kana_matches_untruncated_sequence (α : Type) :
    ∀ (caf : String → Int → List AccentPhrase)
      (upspeak : List AccentPhrase → List AccentPhrase)
      (acoustic : List AccentPhrase → α) (rate : Nat) (body : TTSRequest),
      (tts caf upspeak acoustic rate body).1.kana =
        create_kana (caf body.text body.speaker) ∧
      (truncLoop 0 (caf body.text body.speaker) = caf body.text body.speaker →
        (tts caf upspeak acoustic rate body).1.kana =
          create_kana ((tts caf upspeak acoustic rate body).1.accent_phrases)) := by
  intro caf upspeak acoustic rate body
  refine ⟨rfl, fun h => ?_⟩
  show create_kana (caf body.text body.speaker) =
    create_kana (truncLoop 0 (caf body.text body.speaker))
  rw [h]

/-- Witness for C1 (amended): with a single short phrase nothing is
truncated and `kana` matches the query's own phrase list. -/
theorem kana_matches_untruncated_sequence_witness :
    (tts exCafSmall exUpspeak id 24000 exBody).1.kana =
      create_kana ((tts exCafSmall exUpspeak id 24000 exBody).1.accent_phrases) :=
  ((kana_matches_untruncated_sequence (List AccentPhrase)) exCafSmall exUpspeak id 24000
      exBody).2 (by decide)

/- Helper lemmas about the phrase construction of lines 107-147. -/

theorem buildPhrases_length (lex : String → Option String) (n i m : Nat) (j0 : Nat)
    (aps : List LabelAccentPhrase) :
    (buildPhrases lex n i m j0 aps).length = aps.length := by
  induction aps generalizing j0 with
  | nil => rfl
  | cons a rest ih => simp [buildPhrases, ih]

theorem buildGroups_length (lex : String → Option String) (n i0 : Nat)
    (gs : List LabelBreathGroup) :
    (buildGroups lex n i0 gs).length = gs.length := by
  induction gs generalizing i0 with
  | nil => rfl
  | cons g rest ih => simp [buildGroups, ih]

theorem buildGroups_map_length (lex : String → Option String) (n i0 : Nat)
    (gs : List LabelBreathGroup) :
    (buildGroups lex n i0 gs).map List.length =
      gs.map (fun bg => bg.accent_phrases.length) := by
  induction gs generalizing i0 with
  | nil => rfl
  | cons g rest ih => simp [buildGroups, buildPhrases_length, ih]

theorem buildPhrases_getElem? (lex : String → Option String) (n i m : Nat) :
    ∀ (j0 : Nat) (aps : List LabelAccentPhrase) (k : Nat),
      (buildPhrases lex n i m j0 aps)[k]? =
        (aps[k]?).map (fun ap => buildAccentPhrase lex n i m (j0 + k) ap) := by
  intro j0 aps
  induction aps generalizing j0 with
  | nil => intro k; rfl
  | cons a rest ih =>
      intro k
      rw [show buildPhrases lex n i m j0 (a :: rest) =
          buildAccentPhrase lex n i m j0 a :: buildPhrases lex n i m (j0 + 1) rest from rfl]
      cases k with
      | zero =>
          rw [List.getElem?_cons_zero, List.getElem?_cons_zero]
          rfl
      | succ k =>
          rw [List.getElem?_cons_succ, List.getElem?_cons_succ, ih (j0 + 1) k,
            show j0 + 1 + k = j0 + (k + 1) by omega]

theorem buildGroups_getElem? (lex : String → Option String) (n : Nat) :
    ∀ (i0 : Nat) (gs : List LabelBreathGroup) (i : Nat),
      (buildGroups lex n i0 gs)[i]? =
        (gs[i]?).map (fun bg =>
          buildPhrases lex n (i0 + i) bg.accent_phrases.length 0 bg.accent_phrases) := by
  intro i0 gs
  induction gs generalizing i0 with
  | nil => intro i; rfl
  | cons g rest ih =>
      intro i
      rw [show buildGroups lex n i0 (g :: rest) =
          buildPhrases lex n i0 g.accent_phrases.length 0 g.accent_phrases ::
            buildGroups lex n (i0 + 1) rest from rfl]
      cases i with
      | zero =>
          rw [List.getElem?_cons_zero, List.getElem?_cons_zero]
          rfl
      | succ i =>
          rw [List.getElem?_cons_succ, List.getElem?_cons_succ, ih (i0 + 1) i,
            show i0 + 1 + i = i0 + (i + 1) by omega]

theorem flatten_getElem?_flat {α : Type} (L : List (List α)) :
    ∀ (i j : Nat) (sub : List α), L[i]? = some sub → j < sub.length →
      L.flatten[((L.map List.length).take i).sum + j]? = sub[j]? := by
  induction L with
  | nil => intro i j sub h _; simp at h
  | cons x t ih =>
      intro i j sub h hj
      cases i with
      | zero =>
          rw [List.getElem?_cons_zero, Option.some.injEq] at h
          subst h
          simp only [List.map_cons, List.take_zero, List.sum_nil, Nat.zero_add]
          rw [List.flatten_cons, List.getElem?_append, if_pos hj]
      | succ i =>
          rw [List.getElem?_cons_succ] at h
          have hrec := ih i j sub h hj
          rw [List.flatten_cons]
          have hidx : ((List.map List.length (x :: t)).take (i + 1)).sum + j =
              x.length + (((List.map List.length t).take i).sum + j) := by
            simp only [List.map_cons, List.take_succ_cons, List.sum_cons]
            omega
          rw [hidx, List.getElem?_append_right (Nat.le_add_right _ _),
            Nat.add_sub_cancel_left]
          exact hrec

theorem accentPhrases_getElem? (lex : String → Option String) (u : Utterance)
    (i j : Nat) (bg : LabelBreathGroup) (hbg : u.breath_groups[i]? = some bg)
    (hj : j < bg.accent_phrases.length) :
    (accentPhrasesFromUtterance lex u)[flatIdx u i j]? =
      (bg.accent_phrases[j]?).map
        (fun ap => buildAccentPhrase lex u.breath_groups.length i
          bg.accent_phrases.length j ap) := by
  have hsub : (buildGroups lex u.breath_groups.length 0 u.breath_groups)[i]? =
      some (buildPhrases lex u.breath_groups.length i bg.accent_phrases.length 0
        bg.accent_phrases) := by
    rw [buildGroups_getElem? lex u.breath_groups.length 0 u.breath_groups i, hbg]
    simp [Nat.zero_add]
  have hlen : j < (buildPhrases lex u.breath_groups.length i bg.accent_phrases.length 0
      bg.accent_phrases).length := by
    rw [buildPhrases_length]; exact hj
  have hflat := flatten_getElem?_flat (buildGroups lex u.breath_groups.length 0
    u.breath_groups) i j _ hsub hlen
  have hidx : (((buildGroups lex u.breath_groups.length 0 u.breath_groups).map
      List.length).take i).sum + j = flatIdx u i j := by
    rw [buildGroups_map_length]
    rfl
  rw [hidx] at hflat
  rw [show accentPhrasesFromUtterance lex u =
        (buildGroups lex u.breath_groups.length 0 u.breath_groups).flatten from rfl,
    hflat, buildPhrases_getElem? lex u.breath_groups.length i bg.accent_phrases.length 0
      bg.accent_phrases j]
  simp only [Nat.zero_add]

/- Membership characterisation of the constructed phrases. -/

theorem mem_buildPhrases (lex : String → Option String) (n i m : Nat) :
    ∀ (j0 : Nat) (aps : List LabelAccentPhrase) (p : AccentPhrase),
      p ∈ buildPhrases lex n i m j0 aps →
      ∃ j ap, p = buildAccentPhrase lex n i m j ap := by
  intro j0 aps
  induction aps generalizing j0 with
  | nil => intro p hp; simp [buildPhrases] at hp
  | cons a rest ih =>
      intro p hp
      simp only [buildPhrases] at hp
      rcases List.mem_cons.mp hp with h | h
      · exact ⟨j0, a, h⟩
      · exact ih (j0 + 1) p h

theorem mem_buildGroups (lex : String → Option String) (n : Nat) :
    ∀ (i0 : Nat) (gs : List LabelBreathGroup) (sub : List AccentPhrase),
      sub ∈ buildGroups lex n i0 gs →
      ∃ i m j0 aps, sub = buildPhrases lex n i m j0 aps := by
  intro i0 gs
  induction gs generalizing i0 with
  | nil => intro sub hsub; simp [buildGroups] at hsub
  | cons g rest ih =>
      intro sub hsub
      simp only [buildGroups] at hsub
      rcases List.mem_cons.mp hsub with h | h
      · exact ⟨i0, g.accent_phrases.length, 0, g.accent_phrases, h⟩
      · exact ih (i0 + 1) sub h

theorem mem_accentPhrases_build (lex : String → Option String) (u : Utterance)
    (p : AccentPhrase) (hp : p ∈ accentPhrasesFromUtterance lex u) :
    ∃ nG i m j ap, p = buildAccentPhrase lex nG i m j ap := by
  obtain ⟨sub, hsub, hmem⟩ := List.mem_flatten.mp hp
  obtain ⟨i, m, j0, aps, rfl⟩ :=
    mem_buildGroups lex u.breath_groups.length 0 u.breath_groups sub hsub
  obtain ⟨j, ap, rfl⟩ := mem_buildPhrases lex u.breath_groups.length i m j0 aps p hmem
  exact ⟨u.breath_groups.length, i, m, j, ap, rfl⟩

/-- C4: in the phrase list built by the comprehension of
`create_accent_phrases` (lines 107-147), every attached pause mora is the
literal pause mora (text `、`, no consonant, vowel `pau`, pitch 0); and the
phrase built for position `j` of breath group `i` carries a pause mora
exactly when `j` is the last phrase index of its breath group and `i` is
not the last breath-group index of the utterance. -/
theorem pause_mora_placement (lex : String → Option String) (u : Utterance) (i j : Nat)
    (bg : LabelBreathGroup) (hbg : u.breath_groups[i]? = some bg)
    (hj : j < bg.accent_phrases.length) :
    (∀ p ∈ accentPhrasesFromUtterance lex u,
       p.pause_mora = none ∨
       p.pause_mora = some { text := "、", consonant := none, consonant_length := none,
                             vowel := "pau", vowel_length := 0, pitch := 0 }) ∧
    ((accentPhrasesFromUtterance lex u)[flatIdx u i j]?).map AccentPhrase.pause_mora =
      some (if j = bg.accent_phrases.length - 1 ∧ i ≠ u.breath_groups.length - 1
            then some { text := "、", consonant := none, consonant_length := none,
                        vowel := "pau", vowel_length := 0, pitch := 0 }
            else none) := by
  constructor
  · intro p hp
    obtain ⟨nG, i2, m2, j2, ap2, rfl⟩ := mem_accentPhrases_build lex u p hp
    by_cases hc : j2 = m2 - 1 ∧ i2 ≠ nG - 1
    · right
      show (if j2 = m2 - 1 ∧ i2 ≠ nG - 1 then some pauseMora else none) = _
      rw [if_pos hc]
      rfl
    · left
      show (if j2 = m2 - 1 ∧ i2 ≠ nG - 1 then some pauseMora else none) = none
      rw [if_neg hc]
  · rw [accentPhrases_getElem? lex u i j bg hbg hj,
      List.getElem?_eq_getElem hj]
    show some (if j = bg.accent_phrases.length - 1 ∧ i ≠ u.breath_groups.length - 1
        then some pauseMora else none) = _
    by_cases hc : j = bg.accent_phrases.length - 1 ∧ i ≠ u.breath_groups.length - 1
    · rw [if_pos hc, if_pos hc]
      rfl
    · rw [if_neg hc, if_neg hc]

/-- Witness for C4: in the two-breath-group utterance `exUtterance`, the
phrase at position 0 of breath group 0 carries the pause mora. -/
theorem pause_mora_placement_witness :
    ((accentPhrasesFromUtterance lexEx exUtterance)[flatIdx exUtterance 0 0]?).map
        AccentPhrase.pause_mora =
      some (some { text := "、", consonant := none, consonant_length := none,
                   vowel := "pau", vowel_length := 0, pitch := 0 }) :=
  ((pause_mora_placement lexEx exUtterance 0 0 exLGroup (by decide) (by decide)).2).trans
    (by decide)

/-- C6: every mora of every phrase built by the comprehension of
`create_accent_phrases` (before the timing/pitch filler runs) has
`consonant_length` equal to the placeholder `some 0` exactly when a
consonant is present and `none` otherwise, and placeholder
`vowel_length = 0` and `pitch = 0`; attached pause moras likewise carry
no consonant data and zero length and pitch. -/
theorem placeholder_mora_fields (lex : String → Option String) (u : Utterance)
    (p : AccentPhrase) (hp : p ∈ accentPhrasesFromUtterance lex u) :
    (∀ m ∈ p.moras,
       m.consonant_length = (if m.consonant.isSome then some 0 else none) ∧
       m.vowel_length = 0 ∧ m.pitch = 0) ∧
    (∀ pm, p.pause_mora = some pm →
       pm.consonant = none ∧ pm.consonant_length = none ∧
       pm.vowel_length = 0 ∧ pm.pitch = 0) := by
  obtain ⟨nG, i, mLen, j, ap, rfl⟩ := mem_accentPhrases_build lex u p hp
  constructor
  · intro m hm
    have hm2 : m ∈ ap.moras.map (buildMora lex) := hm
    obtain ⟨lm, _, rfl⟩ := List.mem_map.mp hm2
    exact ⟨rfl, rfl, rfl⟩
  · intro pm hpm
    have hpm2 : (if j = mLen - 1 ∧ i ≠ nG - 1 then some pauseMora else none) = some pm :=
      hpm
    by_cases hc : j = mLen - 1 ∧ i ≠ nG - 1
    · rw [if_pos hc] at hpm2
      injection hpm2 with hpm3
      subst hpm3
      exact ⟨rfl, rfl, rfl, rfl⟩
    · rw [if_neg hc] at hpm2
      cases hpm2

/-- Witness for C6: the first mora built from `exUtterance` has the
placeholder fields. -/
theorem placeholder_mora_fields_witness :
    (buildMora lexEx exLMora).consonant_length =
        (if (buildMora lexEx exLMora).consonant.isSome then some 0 else none) ∧
      (buildMora lexEx exLMora).vowel_length = 0 ∧ (buildMora lexEx exLMora).pitch = 0 :=
  (placeholder_mora_fields lexEx exUtterance exBuiltPhrase (by decide)).1
    (buildMora lexEx exLMora) (by decide)

end RunContainer
